import Mathlib

/-!
Verification of the voice-assistant signal-detection and action-execution
pipeline (`src/local_voice_assistant`): a shallow embedding, in Lean, of
`signal_detector.find_matching_signal`, `action_parser.parse_actions`,
`action_executor.ActionExecutor.execute_actions`,
`json_formatter.format_ner_json_custom`,
`api_client.NERServiceClient._format_grouped_entities` and of the hint
lifecycle of `orchestrator.Orchestrator._process_audio`, together with
theorems about those embeddings.

Strings are modelled as Lean `String` (sequences of Unicode code points,
matching Python `str`); Python dictionaries are modelled as
insertion-ordered association lists with unique keys (updates keep the
position of an existing key, new keys are appended); Python string
lowercasing is modelled with `Char.toLower`, which agrees with
`str.lower` on the ASCII alphabet in play.
-/

namespace VoiceAssistant
/-- Python string falsiness / truthiness helpers use plain `= ""` tests. -/
def isWS (c : Char) : Bool :=
  c = ' ' || c = '\t' || c = '\n' || c = '\r' || c = '\x0b' || c = '\x0c'

/-- Python `str.strip()` (whitespace from both ends), on the char list. -/
def trimWSL (l : List Char) : List Char :=
  ((l.dropWhile isWS).reverse.dropWhile isWS).reverse

/-- Python `str.strip()` on strings. -/
def trimWS (s : String) : String := ⟨trimWSL s.data⟩

/-- Python `str.lstrip(chars)`: drop chars of the set from the left. -/
def lstripSetL (cs : List Char) (l : List Char) : List Char :=
  l.dropWhile (fun c => cs.contains c)

/-- Python `str.rstrip(chars)`: drop chars of the set from the right. -/
def rstripSetL (cs : List Char) (l : List Char) : List Char :=
  (l.reverse.dropWhile (fun c => cs.contains c)).reverse

/-- `string.punctuation` from the Python standard library. -/
def pythonPunct : List Char :=
  ['!', '"', '#', '$', '%', '&', Char.ofNat 39, '(', ')', '*', '+', ',',
   '-', '.', '/', ':', ';', '<', '=', '>', '?', '@', '[', '\\', ']', '^',
   '_', Char.ofNat 96, Char.ofNat 123, '|', Char.ofNat 125, '~']

/-- `text.translate(str.maketrans('', '', string.punctuation))`:
remove every ASCII punctuation character. -/
def stripPunct (s : String) : String :=
  ⟨s.data.filter (fun c => !pythonPunct.contains c)⟩

/-- `str.lower`, ASCII case folding per code point. -/
def lowerStr (s : String) : String := ⟨s.data.map Char.toLower⟩

/-- Number of code points, Python `len`. -/
def strLen (s : String) : Nat := s.data.length

/-- Python slice `s[n:]`. -/
def strDrop (s : String) (n : Nat) : String := ⟨s.data.drop n⟩

/-- Python slice `s[:-n]` for `0 < n ≤ len(s)`, i.e. keep `len(s) - n`. -/
def strTake (s : String) (n : Nat) : String := ⟨s.data.take n⟩

/-- Python `s.startswith(p)`. -/
def pyStartsWith (s p : String) : Bool := p.data.isPrefixOf s.data

/-- Python `s.endswith(p)`. -/
def pyEndsWith (s p : String) : Bool := p.data.isSuffixOf s.data

/-- Substring containment on char lists. -/
def infixCheck (p : List Char) : List Char → Bool
  | [] => p.isEmpty
  | c :: rest => p.isPrefixOf (c :: rest) || infixCheck p rest

/-- Python `p in s` (substring containment). -/
def pySubstr (p s : String) : Bool := infixCheck p.data s.data

/-- The strip set `',.?!;: '` used on residual text in the signal matcher. -/
def residualStripChars : List Char := [',', '.', '?', '!', ';', ':', ' ']

/-- `remainder.lstrip(',.?!;: ').strip()` from the `start` branch. -/
def cleanupStart (s : String) : String :=
  ⟨trimWSL (lstripSetL residualStripChars s.data)⟩

/-- `remainder.rstrip(',.?!;: ').strip()` from the `end` branch. -/
def cleanupEnd (s : String) : String :=
  ⟨trimWSL (rstripSetL residualStripChars s.data)⟩

/-- The `signal_phrase` entry of a command-table record, as stored in the
configuration dictionary: absent, a string, a list of strings, or a value
of some other (wrong) type. -/
inductive PhraseField where
  | missing : PhraseField
  | str : String → PhraseField
  | list : List String → PhraseField
  | other : PhraseField
deriving DecidableEq, Repr

/-- One command-table record (`signal_configs` entry), with the fields the
matcher and the executor read. -/
structure SigConfig where
  name : Option String := none
  signal_phrase : PhraseField := PhraseField.missing
  match_position : Option String := none
  template : Option String := none
  action : List String := []
deriving DecidableEq, Repr

/-- `config.get('match_position', 'anywhere')`. -/
def SigConfig.matchPos (c : SigConfig) : String := c.match_position.getD "anywhere"

/-- The phrase list the matcher iterates for one config: `None` means the
entry is skipped (missing / falsy / wrong-type `signal_phrase`), mirroring
the two `continue` branches of `find_matching_signal`. -/
def phrasesOf (c : SigConfig) : Option (List String) :=
  match c.signal_phrase with
  | PhraseField.missing => none
  | PhraseField.str s => if s = "" then none else some [s]
  | PhraseField.list l => if l = [] then none else some l
  | PhraseField.other => none

/-- The matching logic of `find_matching_signal` for one phrase:
`none` when the phrase does not match (or is the empty string, which the
inner loop skips), `some r` when it matches with residual text `r`. -/
def phraseMatch (text : String) (mp : String) (phrase : String) :
    Option (Option String) :=
  if phrase = "" then none
  else
    let originalLower := lowerStr text
    let phraseLower := lowerStr phrase
    if mp = "start" then
      if pyStartsWith originalLower phraseLower then
        let rm := cleanupStart (strDrop text (strLen phrase))
        some (if rm = "" then none else some rm)
      else none
    else if mp = "end" then
      if pyEndsWith originalLower phraseLower then
        let rm := cleanupEnd (strTake text (strLen text - strLen phrase))
        some (if rm = "" then none else some rm)
      else none
    else if mp = "exact" then
      let textExact := trimWS (stripPunct originalLower)
      let phraseExact := trimWS (stripPunct phraseLower)
      if textExact = phraseExact then some none else none
    else
      if pySubstr phraseLower originalLower then
        some (if trimWS text = "" then none else some text)
      else none

/-- First `some` produced by `f` along a list, i.e. the inner
phrase loop of `find_matching_signal`. -/
def firstSome {α β : Type} (f : α → Option β) : List α → Option β
  | [] => none
  | a :: rest =>
    match f a with
    | some b => some b
    | none => firstSome f rest

/-- Whether one config matches `text`, and with which residual:
skipped / no phrase matching gives `none`. -/
def configMatch (text : String) (c : SigConfig) : Option (Option String) :=
  match phrasesOf c with
  | none => none
  | some phrases => firstSome (phraseMatch text c.matchPos) phrases

/-- The outer config loop of `find_matching_signal`. -/
def findMatchingSignalAux (text : String) :
    List SigConfig → Option SigConfig × Option String
  | [] => (none, none)
  | c :: rest =>
    match configMatch text c with
    | some r => (some c, r)
    | none => findMatchingSignalAux text rest

/-- `signal_detector.find_matching_signal`, returning the pair
`(matched config or None, residual text or None)`. -/
def find_matching_signal (text : String) (cfgs : List SigConfig) :
    Option SigConfig × Option String :=
  if text = "" then (none, none) else findMatchingSignalAux text cfgs

/-- A config the matcher skips as malformed: `signal_phrase` missing,
falsy (empty string / empty list) or of the wrong type. -/
def malformedConfig (c : SigConfig) : Bool :=
  match c.signal_phrase with
  | PhraseField.missing => true
  | PhraseField.str s => s = ""
  | PhraseField.list l => l = []
  | PhraseField.other => true

/-- Whether a config has any matching phrase for `text`. -/
def configMatches (text : String) (c : SigConfig) : Bool :=
  (configMatch text c).isSome

/-- `p` occurs among the phrases the matcher iterates for config `c`. -/
def phraseIn (p : String) (c : SigConfig) : Prop :=
  ∃ ps, phrasesOf c = some ps ∧ p ∈ ps

def wPreCfg : SigConfig :=
  { name := some "never", signal_phrase := PhraseField.str "zzz",
    match_position := some "end" }

def wMidCfg : SigConfig :=
  { name := some "german", signal_phrase := PhraseField.str "german",
    match_position := some "start" }

def wPostCfg : SigConfig :=
  { name := some "late", signal_phrase := PhraseField.str "stuff",
    match_position := some "anywhere" }

def wBadCfg : SigConfig :=
  { name := some "broken", signal_phrase := PhraseField.list [],
    match_position := some "start" }

def wGoCfg : SigConfig :=
  { name := some "go", signal_phrase := PhraseField.str "go",
    match_position := some "start" }

def cexStartCfg : SigConfig :=
  { name := some "go", signal_phrase := PhraseField.str "go",
    match_position := some "start" }

def cexWsCfg : SigConfig :=
  { name := some "blank", signal_phrase := PhraseField.list [" "],
    match_position := some "anywhere" }

def cexEndCfg : SigConfig :=
  { name := some "pls", signal_phrase := PhraseField.str "please",
    match_position := some "end" }

/-- Python `c in s` for a single character. -/
def pyContainsChar (c : Char) (s : String) : Bool := s.data.contains c

/-- Python `s.split(c, 1)` when `c` occurs in `s`: the part before the
first occurrence and the part after it. -/
def splitOnceL (c : Char) : List Char → List Char × List Char
  | [] => ([], [])
  | x :: xs =>
    if x = c then ([], xs)
    else
      let p := splitOnceL c xs
      (x :: p.1, p.2)

/-- Python `s.split(c)`: all segments, `[""]` for the empty string. -/
def splitAllL (c : Char) : List Char → List (List Char)
  | [] => [[]]
  | x :: xs =>
    if x = c then [] :: splitAllL c xs
    else
      match splitAllL c xs with
      | [] => [[x]]
      | h :: t => (x :: h) :: t

/-- Python `str.strip()`. -/
def pyStrip (s : String) : String := trimWS s

/-- One entry of the raw action list: the config may hold non-string
items, which `parse_actions` skips with a warning. -/
inductive RawItem where
  | str : String → RawItem
  | nonstr : RawItem
deriving DecidableEq, Repr

/-- A parsed action record `{'type': …, 'value': …, 'params': …}`;
`params` is a Python dict, modelled as an insertion-ordered association
list with unique keys. -/
structure ParsedAction where
  type : String
  value : Option String
  params : List (String × String)
deriving DecidableEq, Repr

/-- Python `d[k] = v` on an association list: update in place if the key
exists, else append. -/
def dictInsert {α : Type} (l : List (String × α)) (k : String) (v : α) :
    List (String × α) :=
  match l with
  | [] => [(k, v)]
  | (k', v') :: rest =>
    if k' = k then (k, v) :: rest else (k', v') :: dictInsert rest k v

/-- Python `d.get(k)` on an association list. -/
def dictGet {α : Type} (l : List (String × α)) (k : String) : Option α :=
  match l with
  | [] => none
  | (k', v') :: rest => if k' = k then some v' else dictGet rest k

/-- The inner parameter loop of `parse_actions` over the comma-separated
pieces of the value part: accumulates the `params` dict and the mixed
format bare `value`. -/
def parseParams (pairs : List String) : List (String × String) × Option String :=
  pairs.foldl
    (fun acc pair =>
      if pyContainsChar '=' pair then
        let kv := splitOnceL '=' pair.data
        let k := pyStrip ⟨kv.1⟩
        let v := pyStrip ⟨kv.2⟩
        if k = "" then acc else (dictInsert acc.1 k v, acc.2)
      else
        if acc.1 = [] ∧ pyStrip pair ≠ "" then (acc.1, some (pyStrip pair))
        else acc)
    ([], none)

/-- `action_parser.parse_actions` on a single string item; `none` means
the item is skipped (empty `type`). -/
def parseOne (item : String) : Option ParsedAction :=
  if pyContainsChar ':' item then
    let ty := pyStrip ⟨(splitOnceL ':' item.data).1⟩
    let valuePart := pyStrip ⟨(splitOnceL ':' item.data).2⟩
    if pyContainsChar '=' valuePart then
      let pv := parseParams ((splitAllL ',' valuePart.data).map
        (fun l => (⟨l⟩ : String)))
      if ty = "" then none
      else some ⟨ty, if pv.1 = [] then pv.2 else none, pv.1⟩
    else
      if ty = "" then none else some ⟨ty, some valuePart, []⟩
  else
    if item = "" then none else some ⟨item, none, []⟩

/-- `action_parser.parse_actions`: skips non-string items and items with
an empty type, preserves order. -/
def parse_actions (items : List RawItem) : List ParsedAction :=
  items.filterMap
    (fun it =>
      match it with
      | RawItem.nonstr => none
      | RawItem.str s => parseOne s)

/-- A JSON-ish value stored in an NER result dictionary: a string (error
and message texts), a list of entity strings (one entity type), or a
string→count map (the `hits` block). -/
inductive JVal where
  | s : String → JVal
  | l : List String → JVal
  | m : List (String × Nat) → JVal
deriving DecidableEq, Repr

/-- An NER result dictionary, a Python dict modelled as an
insertion-ordered association list with unique keys. -/
abbrev NerDict : Type := List (String × JVal)

/-- `k in d` for the result dictionary. -/
def hasKeyB (k : String) (d : NerDict) : Bool :=
  (dictGet d k).isSome

/-- Lower-case hexadecimal digit. -/
def hexDigit (n : Nat) : Char :=
  Char.ofNat (if n < 10 then 48 + n else 97 + (n - 10))

/-- Four lower-case hex digits, as produced inside `\u` escapes. -/
def hex4 (n : Nat) : String :=
  ⟨[hexDigit (n / 4096 % 16), hexDigit (n / 256 % 16),
    hexDigit (n / 16 % 16), hexDigit (n % 16)]⟩

/-- One character of `json.dumps` string escaping (default
`ensure_ascii=True`; code points beyond the BMP are not modelled). -/
def jsonEscapeChar (c : Char) : String :=
  if c = '"' then "\\\""
  else if c = '\\' then "\\\\"
  else if c = '\n' then "\\n"
  else if c = '\t' then "\\t"
  else if c = '\r' then "\\r"
  else if c = '\x08' then "\\b"
  else if c = '\x0c' then "\\f"
  else if c.toNat < 32 || c.toNat > 126 then "\\u" ++ hex4 c.toNat
  else String.singleton c

/-- `json.dumps` of a string. -/
def jsonDumpStr (s : String) : String :=
  "\"" ++ String.join (s.data.map jsonEscapeChar) ++ "\""

/-- Python `sep.join(parts)`. -/
def joinSep (sep : String) : List String → String
  | [] => ""
  | h :: t => t.foldl (fun acc x => acc ++ sep ++ x) h

/-- `json.dumps` of a list of strings: a single line with `", "`
separators. -/
def dumpJList (xs : List String) : String :=
  "[" ++ joinSep ", " (xs.map jsonDumpStr) ++ "]"

/-- Insertion into a string-sorted list (ascending code-point order, as
Python `sorted` on `str`). -/
def insSorted (x : String) : List String → List String
  | [] => [x]
  | y :: ys => if y < x then y :: insSorted x ys else x :: y :: ys

/-- Python `sorted` on a list of strings. -/
def sortStrs (l : List String) : List String := l.foldr insSorted []

/-- Insertion into a pair list sorted by key then count, as Python
`sorted(d.items())`. -/
def insPair (x : String × Nat) : List (String × Nat) → List (String × Nat)
  | [] => [x]
  | y :: ys =>
    if y.1 < x.1 ∨ (y.1 = x.1 ∧ y.2 < x.2) then y :: insPair x ys
    else x :: y :: ys

/-- Python `sorted(d.items())` for the hits map. -/
def sortPairs (l : List (String × Nat)) : List (String × Nat) :=
  l.foldr insPair []

/-- `json.dumps(value)` for one dictionary value (flat rendering; only
string values occur in the error dictionaries this is applied to). -/
def dumpJVal : JVal → String
  | JVal.s s => jsonDumpStr s
  | JVal.l xs => dumpJList xs
  | JVal.m kvs =>
    "\x7b" ++ joinSep ", "
      (kvs.map (fun kv => jsonDumpStr kv.1 ++ ": " ++ toString kv.2)) ++ "\x7d"

/-- `json.dumps(data, indent=2)` for a flat dictionary, used by
`format_ner_json_custom` on dictionaries holding an `error` key. -/
def jsonDumps2 (d : NerDict) : String :=
  match d with
  | [] => "\x7b\x7d"
  | _ =>
    "\x7b\n"
      ++ joinSep ",\n"
        (d.map (fun kv => "  " ++ jsonDumpStr kv.1 ++ ": " ++ dumpJVal kv.2))
      ++ "\n\x7d"

/-- The `"hits"` block of `format_ner_json_custom`: entries sorted by
entity text, one per line, four-space indented. -/
def hitsBlock (hm : List (String × Nat)) : String :=
  "\"hits\": \x7b\n"
    ++ joinSep ",\n"
      ((sortPairs hm).map
        (fun kv => "    " ++ jsonDumpStr kv.1 ++ ": " ++ toString kv.2))
    ++ "\n  \x7d"

/-- The body of the key loop of `format_ner_json_custom`: accumulates the
single-line entity-type parts and the hits block (empty string when no
hits block was produced). The `none` lookup case cannot occur when the
keys come from the dictionary itself (Python indexes `data[key]`
directly). -/
def formatKeyStep (data : NerDict) (acc : List String × String)
    (key : String) : List String × String :=
  match dictGet data key with
  | none => acc
  | some v =>
    if key = "hits" then
      match v with
      | JVal.m hm => if hm = [] then acc else (acc.1, hitsBlock hm)
      | _ => acc
    else
      match v with
      | JVal.l xs =>
        if xs = [] then acc
        else (acc.1 ++ [jsonDumpStr key ++ ": " ++ dumpJList xs], acc.2)
      | _ => acc

/-- `json_formatter.format_ner_json_custom`: standard JSON for error
dictionaries; otherwise all keys sorted with `hits` moved last, entity
lists one per line, the hits block indented, and `"{}"` when nothing is
eligible. -/
def format_ner_json_custom (data : NerDict) : String :=
  if hasKeyB "error" data then jsonDumps2 data
  else if data = ([] : NerDict) then "\x7b\x7d"
  else
    let keys0 := sortStrs (data.map Prod.fst)
    let keys :=
      if "hits" ∈ keys0 then keys0.erase "hits" ++ ["hits"] else keys0
    let parts := keys.foldl (formatKeyStep data) ([], "")
    let allParts := parts.1 ++ (if parts.2 = "" then [] else [parts.2])
    if allParts = [] then "\x7b\x7d"
    else "\x7b\n  " ++ joinSep ",\n  " allParts ++ "\n\x7d"

/-- `results["hits"][k] = results["hits"].get(k, 0) + count`. -/
def addCount (hits : List (String × Nat)) (k : String) (c : Nat) :
    List (String × Nat) :=
  dictInsert hits k ((dictGet hits k).getD 0 + c)

/-- Add to a per-label uniqueness set, modelled as an
insertion-ordered duplicate-free list. -/
def addName (names : List String) (x : String) : List String :=
  if x ∈ names then names else names ++ [x]

/-- Python truthiness of one dictionary value. -/
def jvalTruthy : JVal → Bool
  | JVal.s s => s ≠ ""
  | JVal.l xs => xs ≠ []
  | JVal.m m => m ≠ []

/-- Python `del d[k]` (the key is unique in the dict). -/
def dictDel (d : NerDict) (k : String) : NerDict :=
  d.filter (fun kv => kv.1 ≠ k)

/-- One counter entry of the entity-processing fold: bump the global
hits count and add the entity text to the label's uniqueness set. -/
def groupInner (label : String)
    (acc2 : List (String × Nat) × List (String × List String))
    (tc : String × Nat) :
    List (String × Nat) × List (String × List String) :=
  (addCount acc2.1 tc.1 tc.2,
   dictInsert acc2.2 label (addName ((dictGet acc2.2 label).getD []) tc.1))

/-- One label group of the entity-processing fold: skip empty labels,
initialize the label's uniqueness set, then fold its counter entries. -/
def groupOuter (acc : List (String × Nat) × List (String × List String))
    (entry : String × List (String × Nat)) :
    List (String × Nat) × List (String × List String) :=
  if entry.1 = "" then acc
  else
    entry.2.foldl (groupInner entry.1)
      (acc.1, dictInsert acc.2 entry.1 ((dictGet acc.2 entry.1).getD []))

/-- The entity-processing fold of
`api_client.NERServiceClient._format_grouped_entities`: accumulate the
global hits counts and the per-label unique entity names from the raw
label→counter groups. -/
def groupAccum (raw : List (String × List (String × Nat))) :
    List (String × Nat) × List (String × List String) :=
  raw.foldl groupOuter ([], [])

/-- `api_client.NERServiceClient._format_grouped_entities`: builds the
result dictionary with a `hits` map first, a sorted unique entity list
per non-empty label, then removes an empty `hits` entry (returning the
empty dictionary when nothing at all was found). -/
def formatGroupedEntities (raw : List (String × List (String × Nat))) :
    NerDict :=
  let acc := groupAccum raw
  let results : NerDict :=
    (acc.2.filterMap
        (fun kv =>
          if kv.2 = [] then none
          else some (kv.1, JVal.l (sortStrs kv.2)))).foldl
      (fun d kv => dictInsert d kv.1 kv.2) [("hits", JVal.m acc.1)]
  let hitsTruthy :=
    match dictGet results "hits" with
    | some v => jvalTruthy v
    | none => false
  let labelKeys := results.filter (fun kv => kv.1 ≠ "hits")
  if !hitsTruthy ∧ labelKeys = ([] : NerDict) then []
  else if !hitsTruthy then dictDel results "hits"
  else results

/-- The execution context handed to `execute_actions`: the residual text
and the clipboard snapshot. At the call site both are strings
(`text_for_signal_handler or ""`, `get_content() or ""`). -/
structure ExecCtx where
  text : String := ""
  clipboard : String := ""
deriving DecidableEq, Repr

/-- The external collaborators of the executor, abstracted as pure
functions: `llm_client.transform_text` (prompt, model override →
optional response), `ner_service_client.extract_and_format_entities`
(text, types, threshold string → result dictionary, never raising — the
client converts every failure into an `error` dictionary),
`clipboard_manager.get_content`, and whether Python `float()` accepts a
given threshold string. -/
structure Collab where
  llm : String → Option String → Option String
  ner : String → String → String → NerDict
  clipboard : Option String
  thresholdOk : String → Bool

/-- `str.format(**context)` for the `{text}` / `{clipboard}` placeholders
used by the command templates: `{{`/`}}` are literal braces, an unknown
placeholder is a `KeyError` (carried as the error value), an unbalanced
brace is a `ValueError`. Format specs are not modelled — the repository's
templates use plain placeholders. The second argument holds the
(reversed) key being read when scanning inside a placeholder. -/
def renderScan (ctx : ExecCtx) : List Char → Option (List Char) →
    Except String (List Char)
  | [], none => Except.ok []
  | [], some _ => Except.error "Single '\x7b' encountered in format string"
  | [c], none =>
    if c = '\x7b' then Except.error "Single '\x7b' encountered in format string"
    else if c = '\x7d' then
      Except.error "Single '\x7d' encountered in format string"
    else (renderScan ctx [] none).map (c :: ·)
  | c :: d :: rest2, none =>
    if c = '\x7b' then
      if d = '\x7b' then (renderScan ctx rest2 none).map ('\x7b' :: ·)
      else renderScan ctx (d :: rest2) (some [])
    else if c = '\x7d' then
      if d = '\x7d' then (renderScan ctx rest2 none).map ('\x7d' :: ·)
      else Except.error "Single '\x7d' encountered in format string"
    else (renderScan ctx (d :: rest2) none).map (c :: ·)
  | c :: rest, some acc =>
    if c = '\x7d' then
      let key : String := ⟨acc.reverse⟩
      if key = "text" then (renderScan ctx rest none).map (ctx.text.data ++ ·)
      else if key = "clipboard" then
        (renderScan ctx rest none).map (ctx.clipboard.data ++ ·)
      else Except.error key
    else renderScan ctx rest (some (c :: acc))
termination_by l _ => l.length
decreasing_by all_goals simp_wf <;> omega

/-- Template rendering, `template.format(**context)`. -/
def renderTemplate (t : String) (ctx : ExecCtx) : Except String String :=
  (renderScan ctx t.data none).map (fun l => ⟨l⟩)

/-- The template of a config under Python truthiness
(`template = config.get('template'); if template: …`). -/
def effTemplate (c : SigConfig) : Option String :=
  match c.template with
  | some t => if t = "" then none else some t
  | none => none

/-- The working state of `execute_actions` while folding over the parsed
actions: the running output pair, the requested state deltas, the
accumulated `llm_params['model_override']`, and the
`action_types_executed` set (a duplicate-free list). -/
structure ExecState where
  text_to_paste : Option String := none
  paste_successful : Bool := false
  new_mode : Option String := none
  new_stt_hint : Option String := none
  model_override : Option String := none
  executed : List String := []
deriving DecidableEq, Repr

/-- `set.add`: append if not already present. -/
def insertSet (l : List String) (x : String) : List String :=
  if l.contains x then l else l ++ [x]

/-- The `llm` action: resolve a prompt from the template (rendered
against the context) or, absent a truthy template, from the residual
text; on a prompt call the LLM collaborator, else fail silently with
`paste_successful = False` and the running output text untouched. -/
def llmStep (cb : Collab) (ctx : ExecCtx) (cfg : SigConfig) (s : ExecState)
    (a : ParsedAction) : ExecState :=
  let s1 :=
    match dictGet a.params "model" with
    | some m => { s with model_override := some m }
    | none => s
  let prompt : Option String :=
    match effTemplate cfg with
    | some t =>
      match renderTemplate t ctx with
      | Except.ok p => some p
      | Except.error _ => none
    | none => if ctx.text = "" then none else some ctx.text
  match prompt with
  | some p =>
    let resp := cb.llm p s1.model_override
    { s1 with text_to_paste := resp, paste_successful := resp.getD "" ≠ "" }
  | none => { s1 with paste_successful := false }

/-- The `mode` action: record the requested mode; a missing/empty value
is only logged. -/
def modeStep (s : ExecState) (a : ParsedAction) : ExecState :=
  match a.value with
  | some v => if v = "" then s else { s with new_mode := some v }
  | none => s

/-- The `language` action: record the requested next-turn STT hint; a
missing/empty value is only logged. -/
def langStep (s : ExecState) (a : ParsedAction) : ExecState :=
  match a.value with
  | some v => if v = "" then s else { s with new_stt_hint := some v }
  | none => s

/-- The `process_template` action: render the config template against the
context; a rendering failure or a missing template produce explicit error
strings with `paste_successful = False`. -/
def templateStep (ctx : ExecCtx) (cfg : SigConfig) (s : ExecState) :
    ExecState :=
  match effTemplate cfg with
  | some t =>
    match renderTemplate t ctx with
    | Except.ok out =>
      { s with text_to_paste := some out, paste_successful := true }
    | Except.error e =>
      { s with
        text_to_paste := some ("Error: Template formatting failed (" ++ e ++ ")"),
        paste_successful := false }
  | none =>
    { s with
      text_to_paste := some "Error: process_template action missing template.",
      paste_successful := false }

/-- The trailing-punctuation strip `'.,!?;:'` of the spoken types. -/
def spokenTypesOf (ctx : ExecCtx) : String :=
  ⟨rstripSetL ['.', ',', '!', '?', ';', ':'] (trimWS ctx.text).data⟩

/-- Entity-type resolution of the `ner_extract` branch: the residual
spoken text (stripped) for `types_source=spoken`, else a literal `types`
parameter, else the missing-types error. -/
def nerTypesRes (ctx : ExecCtx) (a : ParsedAction) : Except String String :=
  if dictGet a.params "types_source" = some "spoken" then
    let t := spokenTypesOf ctx
    if t = "" then Except.error "No types after signal." else Except.ok t
  else
    match dictGet a.params "types" with
    | some ts => Except.ok ts
    | none => Except.error "Missing NER types config."

/-- Input-text resolution of the `ner_extract` branch: the rendered
template when the config has a truthy one, else the clipboard content
(missing or blank clipboard are the corresponding errors). -/
def nerInputRes (cb : Collab) (ctx : ExecCtx) (cfg : SigConfig) :
    Except String String :=
  match effTemplate cfg with
  | some t =>
    match renderTemplate t ctx with
    | Except.ok it => Except.ok it
    | Except.error e => Except.error ("Template error (" ++ e ++ ").")
  | none =>
    match cb.clipboard with
    | none => Except.error "No clipboard."
    | some c =>
      if trimWS c = "" then Except.error "Clipboard empty." else Except.ok c

/-- The `ner_extract` branch body: starting from the running output pair
`(tp0, ps0)`, resolve the type list and input text, optionally call the
NER collaborator, and return `(ner_error, text_to_paste,
paste_successful)` exactly as the Python control flow leaves those three
variables before its final error handling (a failing `float(threshold)`
is the caught-exception path). -/
def nerCompute (cb : Collab) (ctx : ExecCtx) (cfg : SigConfig)
    (a : ParsedAction) (tp0 : Option String) (ps0 : Bool) :
    Option String × Option String × Bool :=
  match nerTypesRes ctx a with
  | Except.error e => (some e, tp0, ps0)
  | Except.ok types =>
    match nerInputRes cb ctx cfg with
    | Except.error e => (some e, tp0, ps0)
    | Except.ok it =>
      match dictGet a.params "threshold" with
      | some th =>
        if cb.thresholdOk th then
          let d := cb.ner it types th
          (none, some (format_ner_json_custom d), !(hasKeyB "error" d))
        else (some "NER processing error.", tp0, ps0)
      | none =>
        let d := cb.ner it types "0.5"
        (none, some (format_ner_json_custom d), !(hasKeyB "error" d))

/-- The final error handling of the `ner_extract` branch: an error
formats an error dictionary; otherwise a still-missing output text is the
"unknown failure" case; otherwise the computed pair stands. -/
def nerFinalize (s : ExecState) (nerr : Option String) (tp : Option String)
    (ps : Bool) : ExecState :=
  match nerr with
  | some e =>
    { s with
      text_to_paste := some (format_ner_json_custom [("error", JVal.s e)]),
      paste_successful := false }
  | none =>
    if tp = none then
      { s with
        text_to_paste :=
          some (format_ner_json_custom [("error", JVal.s "Unknown NER failure.")]),
        paste_successful := false }
    else { s with text_to_paste := tp, paste_successful := ps }

/-- The `ner_extract` action. -/
def nerStep (cb : Collab) (ctx : ExecCtx) (cfg : SigConfig) (s : ExecState)
    (a : ParsedAction) : ExecState :=
  let r := nerCompute cb ctx cfg a s.text_to_paste s.paste_successful
  nerFinalize s r.1 r.2.1 r.2.2

/-- One iteration of the action loop of
`action_executor.ActionExecutor.execute_actions`: skip empty types,
record the type in the executed set, then dispatch on the type string;
the `speak` action only triggers playback (side effect not modelled) and
clears the output pair; an unrecognized type falls through with no
effect. -/
def execStep (cb : Collab) (ctx : ExecCtx) (cfg : SigConfig) (s : ExecState)
    (a : ParsedAction) : ExecState :=
  if a.type = "" then s
  else
    let s1 := { s with executed := insertSet s.executed a.type }
    if a.type = "llm" then llmStep cb ctx cfg s1 a
    else if a.type = "mode" then modeStep s1 a
    else if a.type = "language" then langStep s1 a
    else if a.type = "process_template" then templateStep ctx cfg s1
    else if a.type = "ner_extract" then nerStep cb ctx cfg s1 a
    else if a.type = "speak" then
      { s1 with paste_successful := false, text_to_paste := none }
    else s1

/-- The result dictionary of `execute_actions`; `new_mode` /
`new_stt_hint` are `none` exactly when the corresponding key is absent
from the Python result. -/
structure ActionResult where
  text_to_paste : Option String
  paste_successful : Bool
  only_language_action : Bool
  new_mode : Option String
  new_stt_hint : Option String
deriving DecidableEq, Repr

/-- `action_executor.ActionExecutor.execute_actions`: fold the action
loop over the parsed actions, then derive `only_language_action` by
discarding `language` from the executed-types set and checking nothing
else ran while a hint change was requested. -/
def execute_actions (cb : Collab) (actions : List ParsedAction)
    (ctx : ExecCtx) (cfg : SigConfig) : ActionResult :=
  let s := actions.foldl (execStep cb ctx cfg) {}
  let leftover := (s.executed).erase "language"
  { text_to_paste := s.text_to_paste,
    paste_successful := s.paste_successful,
    only_language_action := s.new_stt_hint.isSome && leftover.isEmpty,
    new_mode := s.new_mode,
    new_stt_hint := s.new_stt_hint }

/-- Action types that write the output pair
(`text_to_paste`/`paste_successful`). -/
def outWriter (t : String) : Bool :=
  t = "llm" || t = "process_template" || t = "ner_extract" || t = "speak"

def cbDemo : Collab :=
  { llm := fun _ _ => none,
    ner := fun _ _ _ => [("Person", JVal.l ["John"]), ("hits", JVal.m [("John", 1)])],
    clipboard := some "John works at Acme",
    thresholdOk := fun _ => true }

def actPT : ParsedAction := ⟨"process_template", none, []⟩

def actNer : ParsedAction := ⟨"ner_extract", none, [("types", "person")]⟩

def actLangDe : ParsedAction := ⟨"language", some "de-DE", []⟩

def actLlm : ParsedAction := ⟨"llm", none, []⟩

def actUnknown : ParsedAction := ⟨"frobnicate", none, []⟩

/-- One `SIGNAL_WORD_CONFIG` entry as read by the orchestrator's inline
dispatch in `_process_audio`: a single signal phrase string, a match
position, an action name (`set_mode`, `set_next_stt`,
`set_next_stt_and_passthrough`, `transform`, default `transform`), the
state values it carries, and the transformation handler, abstracted as a
pure text transformer returning `None` on failure (handler exceptions are
caught and become `None`). -/
structure OrchSigConfig where
  signal_phrase : Option String := none
  match_position : Option String := none
  action : Option String := none
  mode_value : Option String := none
  stt_language_value : Option String := none
  overlay_message : Option String := none
  handler : Option (String → Option String) := none

/-- The session state owned by the orchestrator that the dispatch
mutates: the active translation mode and the pending one-shot STT
language hint. -/
structure OrchState where
  translation_mode : Option String := none
  next_stt_language_hint : Option String := none

/-- The orchestrator's residual strip set `',.?!;:'` (unlike the signal
detector's, without the space — `.strip()` runs afterwards anyway). -/
def orchStripChars : List Char := [',', '.', '?', '!', ';', ':']

/-- `remainder.lstrip(',.?!;:').strip()` in the orchestrator's `start`
branch. -/
def orchCleanStart (s : String) : String :=
  ⟨trimWSL (lstripSetL orchStripChars s.data)⟩

/-- `remainder.rstrip(',.?!;:').strip()` in the orchestrator's `end`
branch. -/
def orchCleanEnd (s : String) : String :=
  ⟨trimWSL (rstripSetL orchStripChars s.data)⟩

/-- The matching logic of the orchestrator's inline signal loop for one
config entry: `some t` is a match handing `t` to the handler. Unlike
`find_matching_signal`, the phrase is compared as configured (not
lowered) and an `exact` match passes the full original text on. `check`
is the lowered punctuation-free `final_text_check`. -/
def orchConfigMatch (text check : String) (c : OrchSigConfig) :
    Option String :=
  match c.signal_phrase with
  | none => none
  | some p =>
    if p = "" then none
    else
      let tl := lowerStr text
      let mp := c.match_position.getD "anywhere"
      if mp = "start" then
        if pyStartsWith tl p then
          some (orchCleanStart (strDrop text (strLen p)))
        else none
      else if mp = "end" then
        if pyEndsWith tl p then
          some (orchCleanEnd (strTake text (strLen text - strLen p)))
        else none
      else if mp = "exact" then
        if check = p then some text else none
      else
        if pySubstr p tl then some text else none

/-- The orchestrator's signal loop over `SIGNAL_WORD_CONFIG.items()`:
first matching entry wins. -/
def orchFind (text check : String) :
    List (String × OrchSigConfig) → Option (OrchSigConfig × String)
  | [] => none
  | (_, c) :: rest =>
    match orchConfigMatch text check c with
    | some t => some (c, t)
    | none => orchFind text check rest

/-- The dispatch step of `_process_audio` on the match result: returns
the updated session state and the text to paste. `sgT` abstracts
`_translate_to_swiss_german` (falsy results keep the original text). A
missing handler on a `transform` action and an unknown action name paste
nothing. -/
def orchDispatch (sgT : String → Option String) (st : OrchState)
    (text : String) (found : Option (OrchSigConfig × String)) :
    OrchState × Option String :=
  match found with
  | none => (st, some text)
  | some (c, tfh) =>
    let act := c.action.getD "transform"
    if act = "set_mode" then
      ({ st with translation_mode := c.mode_value }, none)
    else if act = "set_next_stt" then
      ({ st with next_stt_language_hint := c.stt_language_value }, none)
    else if act = "set_next_stt_and_passthrough" then
      ({ st with next_stt_language_hint := c.stt_language_value }, some tfh)
    else if act = "transform" then
      let eff :=
        if st.translation_mode = some "swiss_german" then
          match sgT tfh with
          | some t => if t = "" then tfh else t
          | none => tfh
        else tfh
      match c.handler with
      | some f => (st, f eff)
      | none => (st, none)
    else (st, none)

/-- One turn of `Orchestrator._process_audio` as far as session state and
pasted text are concerned: resolve and consume the pending STT hint
(truthy hints are used for this transcription and reset immediately),
transcribe (`stt` abstracts transcription + sanitization + accumulation
for a given language), filter courtesy phrases, run the inline signal
loop and dispatch. Returns the new state, the language used for the
transcription call, and the text to paste. -/
def processTurn (defaultLang : String) (stt : String → String)
    (sgT : String → Option String)
    (configs : List (String × OrchSigConfig)) (st : OrchState) :
    OrchState × String × Option String :=
  let hintRes : String × OrchState :=
    match st.next_stt_language_hint with
    | some h =>
      if h = "" then (defaultLang, st)
      else (h, { st with next_stt_language_hint := none })
    | none => (defaultLang, st)
  let lang := hintRes.1
  let st1 := hintRes.2
  let text := stt lang
  let check := trimWS (stripPunct (lowerStr text))
  if check = "you" then (st1, lang, none)
  else if check = "thank you" then (st1, lang, none)
  else if text = "" then (st1, lang, none)
  else
    let res := orchDispatch sgT st1 text (orchFind text check configs)
    (res.1, lang, res.2)

/-- The entity-type line for one key, as `format_ner_json_custom` emits
it: present exactly when the key holds a non-empty entity list. -/
def labelLineOf (data : NerDict) (k : String) : Option String :=
  match dictGet data k with
  | some (JVal.l xs) =>
    if xs = [] then none
    else some (jsonDumpStr k ++ ": " ++ dumpJList xs)
  | _ => none

/-- The output block of `format_ner_json_custom` written out as §6 of the
spec describes it: one line per entity-type label in sorted key order,
then the hits block last, `"{}"` when nothing is eligible. Stated
separately so the implementation can be proved equal to it. -/
def formatNerSpec (data : NerDict) : String :=
  let labelLines :=
    (sortStrs ((data.map Prod.fst).filter (fun k => k != "hits"))).filterMap
      (labelLineOf data)
  let hitsPart :=
    match dictGet data "hits" with
    | some (JVal.m hm) => if hm = [] then [] else [hitsBlock hm]
    | _ => []
  let all := labelLines ++ hitsPart
  if all = [] then "\x7b\x7d" else "\x7b\n  " ++ joinSep ",\n  " all ++ "\n\x7d"

lemma infixCheck_of_isInfix {p l : List Char} (h : p <:+: l) :
    infixCheck p l = true := by
  induction l with
  | nil =>
    obtain ⟨s, t, hst⟩ := h
    have hp : p = [] := by
      rcases List.append_eq_nil.mp hst with ⟨h1, _⟩
      exact (List.append_eq_nil.mp h1).2
    simp [infixCheck, hp]
  | cons a rest ih =>
    obtain ⟨s, t, hst⟩ := h
    cases s with
    | nil =>
      simp only [List.nil_append] at hst
      have hpre : p.isPrefixOf (a :: rest) = true := by
        rw [List.isPrefixOf_iff_prefix]
        exact ⟨t, hst⟩
      simp [infixCheck, hpre]
    | cons b s' =>
      have htail : p <:+: rest := by
        refine ⟨s', t, ?_⟩
        have := hst
        simp only [List.cons_append] at this
        exact (List.cons.injEq _ _ _ _ ▸ this).2
      simp [infixCheck, ih htail]

lemma cleanupStart_isInfix (s : String) :
    infixCheck (cleanupStart s).data s.data = true := by
  apply infixCheck_of_isInfix
  show trimWSL (lstripSetL residualStripChars s.data) <:+: s.data
  have h1 : lstripSetL residualStripChars s.data <:+ s.data :=
    List.dropWhile_suffix _
  have h2 : trimWSL (lstripSetL residualStripChars s.data) <:+:
      lstripSetL residualStripChars s.data := by
    unfold trimWSL
    have ha : (lstripSetL residualStripChars s.data).dropWhile isWS <:+
        lstripSetL residualStripChars s.data := List.dropWhile_suffix _
    have hb : (((lstripSetL residualStripChars s.data).dropWhile
        isWS).reverse.dropWhile isWS).reverse <+:
        (lstripSetL residualStripChars s.data).dropWhile isWS := by
      have := List.dropWhile_suffix (l := ((lstripSetL residualStripChars
        s.data).dropWhile isWS).reverse) (p := isWS)
      have hrev := this.reverse
      simpa using hrev
    exact hb.isInfix.trans ha.isInfix
  exact h2.trans h1.isInfix

lemma cleanupEnd_isInfix (s : String) :
    infixCheck (cleanupEnd s).data s.data = true := by
  apply infixCheck_of_isInfix
  show trimWSL (rstripSetL residualStripChars s.data) <:+: s.data
  have h1 : rstripSetL residualStripChars s.data <+: s.data := by
    unfold rstripSetL
    have := List.dropWhile_suffix (l := s.data.reverse)
      (p := fun c => residualStripChars.contains c)
    have hrev := this.reverse
    simpa using hrev
  have h2 : trimWSL (rstripSetL residualStripChars s.data) <:+:
      rstripSetL residualStripChars s.data := by
    unfold trimWSL
    have ha : (rstripSetL residualStripChars s.data).dropWhile isWS <:+
        rstripSetL residualStripChars s.data := List.dropWhile_suffix _
    have hb : (((rstripSetL residualStripChars s.data).dropWhile
        isWS).reverse.dropWhile isWS).reverse <+:
        (rstripSetL residualStripChars s.data).dropWhile isWS := by
      have := List.dropWhile_suffix (l := ((rstripSetL residualStripChars
        s.data).dropWhile isWS).reverse) (p := isWS)
      have hrev := this.reverse
      simpa using hrev
    exact hb.isInfix.trans ha.isInfix
  exact h2.trans h1.isInfix

lemma firstSome_eq_some {α β : Type} {f : α → Option β} {l : List α} {b : β}
    (h : firstSome f l = some b) : ∃ a ∈ l, f a = some b := by
  induction l with
  | nil => simp [firstSome] at h
  | cons a rest ih =>
    unfold firstSome at h
    cases hf : f a with
    | some b' =>
      rw [hf] at h
      exact ⟨a, List.mem_cons_self a rest, by simpa [hf] using h⟩
    | none =>
      rw [hf] at h
      obtain ⟨a', ha', hfa'⟩ := ih h
      exact ⟨a', List.mem_cons_of_mem a ha', hfa'⟩

lemma configMatch_eq_some {text : String} {c : SigConfig} {r : Option String}
    (h : configMatch text c = some r) :
    ∃ p, phraseIn p c ∧ phraseMatch text c.matchPos p = some r := by
  unfold configMatch at h
  cases hp : phrasesOf c with
  | none => rw [hp] at h; simp at h
  | some ps =>
    rw [hp] at h
    obtain ⟨p, hmem, hpm⟩ := firstSome_eq_some h
    exact ⟨p, ⟨ps, hp, hmem⟩, hpm⟩

lemma find_eq_pair {text : String} {cfgs : List SigConfig} {c : SigConfig}
    {r : Option String}
    (h : find_matching_signal text cfgs = (some c, r)) :
    configMatch text c = some r := by
  unfold find_matching_signal at h
  by_cases ht : text = ""
  · simp [ht] at h
  · rw [if_neg ht] at h
    induction cfgs with
    | nil => simp [findMatchingSignalAux] at h
    | cons d rest ih =>
      unfold findMatchingSignalAux at h
      cases hd : configMatch text d with
      | some r' =>
        rw [hd] at h
        obtain ⟨hc, hr⟩ := Prod.mk.injEq _ _ _ _ ▸ h
        cases Option.some.injEq _ _ ▸ hc
        subst hr
        exact hd
      | none =>
        rw [hd] at h
        exact ih h

/-- C1. `find_matching_signal` implements first-match-wins in table order:
if every config before `c` in the table fails to match `text` and `c`
matches, then `c` is the config returned, whatever configs follow it. -/
theorem find_first_match_wins (text : String) (pre post : List SigConfig)
    (c : SigConfig) (htext : text ≠ "")
    (hpre : ∀ c' ∈ pre, configMatches text c' = false)
    (hc : configMatches text c = true) :
    (find_matching_signal text (pre ++ c :: post)).1 = some c := by
  unfold find_matching_signal
  rw [if_neg htext]
  induction pre with
  | nil =>
    simp only [List.nil_append]
    unfold findMatchingSignalAux
    unfold configMatches at hc
    cases h : configMatch text c with
    | some r => simp [h]
    | none => rw [h] at hc; simp at hc
  | cons d ds ih =>
    have hd : configMatches text d = false := hpre d (List.mem_cons_self d ds)
    unfold configMatches at hd
    simp only [List.cons_append]
    unfold findMatchingSignalAux
    cases h : configMatch text d with
    | some r => rw [h] at hd; simp at hd
    | none =>
      simp only
      exact ih (fun c' hc' => hpre c' (List.mem_cons_of_mem d hc'))

/-- C1 witness: on `"german stuff"`, with a non-matching config before and a
config after whose phrase also matches, the middle config wins. -/
theorem find_first_match_wins_witness :
    (find_matching_signal "german stuff" ([wPreCfg] ++ wMidCfg :: [wPostCfg])).1
      = some wMidCfg :=
  find_first_match_wins "german stuff" [wPreCfg] [wPostCfg] wMidCfg
    (by decide)
    (by
      intro c' h
      rw [List.mem_singleton] at h
      subst h
      rfl)
    rfl

/-- C7. A malformed table entry (missing, empty or wrong-typed
`signal_phrase`) is skipped: matching over the table with the bad entry in
front gives exactly the result of matching over the rest, so one bad entry
never prevents later commands from being tried and matched (and the
matcher, modelled as a total function, never raises). -/
theorem find_skips_malformed (text : String) (bad : SigConfig)
    (rest : List SigConfig) (hbad : malformedConfig bad = true) :
    find_matching_signal text (bad :: rest) = find_matching_signal text rest := by
  unfold find_matching_signal
  by_cases ht : text = ""
  · simp [ht]
  · rw [if_neg ht, if_neg ht]
    have hnone : configMatch text bad = none := by
      unfold malformedConfig at hbad
      unfold configMatch phrasesOf
      cases hsp : bad.signal_phrase with
      | missing => rfl
      | str s => rw [hsp] at hbad; simp only [decide_eq_true_eq] at hbad; simp [hbad]
      | list l => rw [hsp] at hbad; simp only [decide_eq_true_eq] at hbad; simp [hbad]
      | other => rfl
    have hstep : findMatchingSignalAux text (bad :: rest)
        = match configMatch text bad with
          | some r => (some bad, r)
          | none => findMatchingSignalAux text rest := rfl
    rw [hstep, hnone]

/-- C7 witness: a config with an empty phrase list is skipped and the later
`"go"` command still matches `"go home"`. -/
theorem find_skips_malformed_witness :
    find_matching_signal "go home" [wBadCfg, wGoCfg]
        = find_matching_signal "go home" [wGoCfg]
      ∧ (find_matching_signal "go home" [wGoCfg]).1 = some wGoCfg :=
  ⟨find_skips_malformed "go home" wBadCfg [wGoCfg] rfl, rfl⟩

lemma phraseMatch_exact {text p : String} {r : Option String}
    (h : phraseMatch text "exact" p = some r) : r = none := by
  by_cases hp : p = ""
  · simp [phraseMatch, hp] at h
  · simp [phraseMatch, hp] at h
    exact h.2.symm

lemma phraseMatch_anywhere {text p : String} {r : Option String}
    (h : phraseMatch text "anywhere" p = some r) :
    r = if trimWS text = "" then none else some text := by
  by_cases hp : p = ""
  · simp [phraseMatch, hp] at h
  · simp [phraseMatch, hp] at h
    exact h.2.symm

lemma phraseMatch_start {text p : String} {r : Option String}
    (h : phraseMatch text "start" p = some r) :
    pyStartsWith (lowerStr text) (lowerStr p) = true
      ∧ r = (if cleanupStart (strDrop text (strLen p)) = "" then none
             else some (cleanupStart (strDrop text (strLen p)))) := by
  by_cases hp : p = ""
  · simp [phraseMatch, hp] at h
  · simp [phraseMatch, hp] at h
    exact ⟨h.1, h.2.symm⟩

lemma phraseMatch_end {text p : String} {r : Option String}
    (h : phraseMatch text "end" p = some r) :
    pyEndsWith (lowerStr text) (lowerStr p) = true
      ∧ r = (if cleanupEnd (strTake text (strLen text - strLen p)) = "" then none
             else some (cleanupEnd (strTake text (strLen text - strLen p)))) := by
  by_cases hp : p = ""
  · simp [phraseMatch, hp] at h
  · simp [phraseMatch, hp] at h
    exact ⟨h.1, h.2.symm⟩

/-- C2 counterexample. The residual-text laws fail as stated on two
concrete inputs: for the `start` command `"go"` on transcript
`"go go home"` the residual `"go home"` still contains the matched phrase
`"go"`, and for an `anywhere` command matching the non-empty whitespace
transcript `" "` the residual is `None`, not the original input
verbatim. -/
theorem residual_laws_counterexample :
    ((find_matching_signal "go go home" [cexStartCfg]).1 = some cexStartCfg
      ∧ (find_matching_signal "go go home" [cexStartCfg]).2 = some "go home"
      ∧ pySubstr "go" "go home" = true)
    ∧ ((find_matching_signal " " [cexWsCfg]).1 = some cexWsCfg
      ∧ (find_matching_signal " " [cexWsCfg]).2 = none) := by
  exact ⟨⟨rfl, rfl, rfl⟩, rfl, rfl⟩

/-- C2 (amended). Residual-text laws that the matcher actually obeys:
for an `exact` match the residual is always `None`; for an `anywhere`
match the residual is the original input verbatim when the input has a
non-whitespace character and `None` for whitespace-only input; for a
`start` (resp. `end`) match the residual, when present, is a contiguous
substring of the input after (resp. before) the anchored occurrence of the
matched phrase — the anchored occurrence itself is removed, though other
occurrences of the phrase may remain. -/
theorem residual_laws_amended (text : String) (cfgs : List SigConfig)
    (c : SigConfig) (r : Option String)
    (h : find_matching_signal text cfgs = (some c, r)) :
    (c.matchPos = "exact" → r = none)
    ∧ (c.matchPos = "anywhere" →
        r = if trimWS text = "" then none else some text)
    ∧ (c.matchPos = "start" → ∀ s, r = some s →
        ∃ p, phraseIn p c ∧ pyStartsWith (lowerStr text) (lowerStr p) = true
          ∧ infixCheck s.data (strDrop text (strLen p)).data = true)
    ∧ (c.matchPos = "end" → ∀ s, r = some s →
        ∃ p, phraseIn p c ∧ pyEndsWith (lowerStr text) (lowerStr p) = true
          ∧ infixCheck s.data
              (strTake text (strLen text - strLen p)).data = true) := by
  have hcm := find_eq_pair h
  obtain ⟨p, hin, hpm⟩ := configMatch_eq_some hcm
  refine ⟨?_, ?_, ?_, ?_⟩
  · intro hmp
    rw [hmp] at hpm
    exact phraseMatch_exact hpm
  · intro hmp
    rw [hmp] at hpm
    exact phraseMatch_anywhere hpm
  · intro hmp s hs
    rw [hmp] at hpm
    obtain ⟨hsw, hr⟩ := phraseMatch_start hpm
    refine ⟨p, hin, hsw, ?_⟩
    by_cases hrm : cleanupStart (strDrop text (strLen p)) = ""
    · rw [if_pos hrm] at hr
      rw [hr] at hs
      simp at hs
    · rw [if_neg hrm] at hr
      rw [hr] at hs
      have : s = cleanupStart (strDrop text (strLen p)) :=
        (Option.some.injEq _ _ ▸ hs).symm
      rw [this]
      exact cleanupStart_isInfix _
  · intro hmp s hs
    rw [hmp] at hpm
    obtain ⟨hsw, hr⟩ := phraseMatch_end hpm
    refine ⟨p, hin, hsw, ?_⟩
    by_cases hrm : cleanupEnd (strTake text (strLen text - strLen p)) = ""
    · rw [if_pos hrm] at hr
      rw [hr] at hs
      simp at hs
    · rw [if_neg hrm] at hr
      rw [hr] at hs
      have : s = cleanupEnd (strTake text (strLen text - strLen p)) :=
        (Option.some.injEq _ _ ▸ hs).symm
      rw [this]
      exact cleanupEnd_isInfix _

/-- C2 amended-theorem witness: the laws applied at the `end`-match of
`"please"` on `"fix this, please"`, whose residual is `"fix this"`: the
residual sits inside the text before the anchored phrase. -/
theorem residual_laws_amended_witness :
    ∃ p, phraseIn p cexEndCfg
      ∧ pyEndsWith (lowerStr "fix this, please") (lowerStr p) = true
      ∧ infixCheck ("fix this" : String).data
          (strTake "fix this, please"
            (strLen "fix this, please" - strLen p)).data = true :=
  (residual_laws_amended "fix this, please" [cexEndCfg] cexEndCfg
      (some "fix this") rfl).2.2.2 rfl "fix this" rfl

/-- C5. Parser invariant: every record `parse_actions` produces with a
non-empty `params` dict has `value = None` — a parsed action never
carries both a bare value and parameters. -/
theorem parse_actions_params_value_invariant (items : List RawItem)
    (pa : ParsedAction) (hmem : pa ∈ parse_actions items)
    (hp : pa.params ≠ []) : pa.value = none := by
  unfold parse_actions at hmem
  rw [List.mem_filterMap] at hmem
  obtain ⟨it, _, hit⟩ := hmem
  cases it with
  | nonstr => simp at hit
  | str s =>
    simp only at hit
    unfold parseOne at hit
    by_cases h1 : pyContainsChar ':' s = true
    · rw [if_pos h1] at hit
      by_cases h2 : pyContainsChar '='
          (pyStrip ⟨(splitOnceL ':' s.data).2⟩) = true
      · rw [if_pos h2] at hit
        by_cases h3 : pyStrip ⟨(splitOnceL ':' s.data).1⟩ = ""
        · rw [if_pos h3] at hit; simp at hit
        · rw [if_neg h3] at hit
          have := (Option.some.injEq _ _ ▸ hit)
          rw [← this] at hp ⊢
          simp only at hp ⊢
          rw [if_neg hp]
      · rw [if_neg h2] at hit
        by_cases h3 : pyStrip ⟨(splitOnceL ':' s.data).1⟩ = ""
        · rw [if_pos h3] at hit; simp at hit
        · rw [if_neg h3] at hit
          have := (Option.some.injEq _ _ ▸ hit)
          rw [← this] at hp
          simp at hp
    · rw [if_neg h1] at hit
      by_cases h3 : s = ""
      · rw [if_pos h3] at hit; simp at hit
      · rw [if_neg h3] at hit
        have := (Option.some.injEq _ _ ▸ hit)
        rw [← this] at hp
        simp at hp

/-- C5 witness: the spec's round-trip example
`"ner_extract:types_source=spoken,threshold=0.4"` parses to the expected
record, and the invariant applied there yields `value = None`. -/
theorem parse_actions_params_value_invariant_witness :
    parse_actions [RawItem.str "ner_extract:types_source=spoken,threshold=0.4"]
      = [⟨"ner_extract", none, [("types_source", "spoken"), ("threshold", "0.4")]⟩]
    ∧ (⟨"ner_extract", none,
        [("types_source", "spoken"), ("threshold", "0.4")]⟩ : ParsedAction).value
      = none :=
  ⟨by decide,
   parse_actions_params_value_invariant
     [RawItem.str "ner_extract:types_source=spoken,threshold=0.4"]
     ⟨"ner_extract", none, [("types_source", "spoken"), ("threshold", "0.4")]⟩
     (by decide) (by decide)⟩

lemma nerCompute_indep (cb : Collab) (ctx : ExecCtx) (cfg : SigConfig)
    (a : ParsedAction) (tp0 tp0' : Option String) (ps0 ps0' : Bool) :
    (nerCompute cb ctx cfg a tp0 ps0).1 = (nerCompute cb ctx cfg a tp0' ps0').1
    ∧ ((nerCompute cb ctx cfg a tp0 ps0).1 = none →
        nerCompute cb ctx cfg a tp0 ps0 = nerCompute cb ctx cfg a tp0' ps0') := by
  unfold nerCompute
  repeat' split
  all_goals simp

lemma nerCompute_cases (cb : Collab) (ctx : ExecCtx) (cfg : SigConfig)
    (a : ParsedAction) (tp0 : Option String) (ps0 : Bool) :
    (∃ e, nerCompute cb ctx cfg a tp0 ps0 = (some e, tp0, ps0))
    ∨ (∃ it ty th, nerCompute cb ctx cfg a tp0 ps0
        = (none, some (format_ner_json_custom (cb.ner it ty th)),
           !(hasKeyB "error" (cb.ner it ty th)))) := by
  unfold nerCompute
  repeat' split
  all_goals
    first
      | exact Or.inl ⟨_, rfl⟩
      | exact Or.inr ⟨_, _, _, rfl⟩

lemma nerFinalize_error (s : ExecState) (e : String) (tp : Option String)
    (ps : Bool) :
    (nerFinalize s (some e) tp ps).text_to_paste
        = some (format_ner_json_custom [("error", JVal.s e)])
    ∧ (nerFinalize s (some e) tp ps).paste_successful = false := by
  simp [nerFinalize]

lemma nerFinalize_output_indep (s s' : ExecState) (nerr : Option String)
    (tp : Option String) (ps : Bool) :
    (nerFinalize s nerr tp ps).text_to_paste
        = (nerFinalize s' nerr tp ps).text_to_paste
    ∧ (nerFinalize s nerr tp ps).paste_successful
        = (nerFinalize s' nerr tp ps).paste_successful := by
  unfold nerFinalize
  cases nerr with
  | some e => exact ⟨rfl, rfl⟩
  | none =>
    constructor
    · by_cases htp : tp = none
      · rw [if_pos htp, if_pos htp]
      · rw [if_neg htp, if_neg htp]
    · by_cases htp : tp = none
      · rw [if_pos htp, if_pos htp]
      · rw [if_neg htp, if_neg htp]

lemma nerStep_output_indep (cb : Collab) (ctx : ExecCtx) (cfg : SigConfig)
    (s s' : ExecState) (a : ParsedAction) :
    (nerStep cb ctx cfg s a).text_to_paste
        = (nerStep cb ctx cfg s' a).text_to_paste
    ∧ (nerStep cb ctx cfg s a).paste_successful
        = (nerStep cb ctx cfg s' a).paste_successful := by
  obtain ⟨h1, h2⟩ := nerCompute_indep cb ctx cfg a
    s.text_to_paste s'.text_to_paste s.paste_successful s'.paste_successful
  unfold nerStep
  dsimp only
  cases hr : (nerCompute cb ctx cfg a s.text_to_paste s.paste_successful).1 with
  | some e =>
    rw [hr] at h1
    rw [← h1]
    constructor
    · exact (nerFinalize_error s e _ _).1.trans
        ((nerFinalize_error s' e _ _).1).symm
    · exact (nerFinalize_error s e _ _).2.trans
        ((nerFinalize_error s' e _ _).2).symm
  | none =>
    rw [hr] at h1
    rw [h2 hr, ← h1]
    exact nerFinalize_output_indep s s' none _ _

lemma templateStep_output_indep (ctx : ExecCtx) (cfg : SigConfig)
    (s s' : ExecState) :
    (templateStep ctx cfg s).text_to_paste
        = (templateStep ctx cfg s').text_to_paste
    ∧ (templateStep ctx cfg s).paste_successful
        = (templateStep ctx cfg s').paste_successful := by
  unfold templateStep
  split
  · split
    · simp
    · simp
  · simp

lemma execStep_output_indep (cb : Collab) (ctx : ExecCtx) (cfg : SigConfig)
    (s s' : ExecState) (a : ParsedAction)
    (h : a.type = "process_template" ∨ a.type = "ner_extract") :
    (execStep cb ctx cfg s a).text_to_paste
        = (execStep cb ctx cfg s' a).text_to_paste
    ∧ (execStep cb ctx cfg s a).paste_successful
        = (execStep cb ctx cfg s' a).paste_successful := by
  rcases h with h | h
  · unfold execStep
    simp only [h]
    norm_num
    exact templateStep_output_indep ctx cfg _ _
  · unfold execStep
    simp only [h]
    norm_num
    exact nerStep_output_indep cb ctx cfg _ _ a

lemma execStep_nonwriter (cb : Collab) (ctx : ExecCtx) (cfg : SigConfig)
    (s : ExecState) (a : ParsedAction) (h : outWriter a.type = false) :
    (execStep cb ctx cfg s a).text_to_paste = s.text_to_paste
    ∧ (execStep cb ctx cfg s a).paste_successful = s.paste_successful := by
  have hllm : a.type ≠ "llm" := by
    intro he; rw [outWriter, he] at h; simp at h
  have hpt : a.type ≠ "process_template" := by
    intro he; rw [outWriter, he] at h; simp at h
  have hner : a.type ≠ "ner_extract" := by
    intro he; rw [outWriter, he] at h; simp at h
  have hspeak : a.type ≠ "speak" := by
    intro he; rw [outWriter, he] at h; simp at h
  unfold execStep
  by_cases h0 : a.type = ""
  · simp [h0]
  · rw [if_neg h0, if_neg hllm]
    by_cases hm : a.type = "mode"
    · rw [if_pos hm]
      unfold modeStep
      cases a.value with
      | none => simp
      | some v =>
        by_cases hv : v = ""
        · simp [hv]
        · simp [hv]
    · rw [if_neg hm]
      by_cases hl : a.type = "language"
      · rw [if_pos hl]
        unfold langStep
        cases a.value with
        | none => simp
        | some v =>
          by_cases hv : v = ""
          · simp [hv]
          · simp [hv]
      · rw [if_neg hl, if_neg hpt, if_neg hner, if_neg hspeak]
        simp

lemma foldl_nonwriters (cb : Collab) (ctx : ExecCtx) (cfg : SigConfig)
    (rest : List ParsedAction) (s : ExecState)
    (h : ∀ b ∈ rest, outWriter b.type = false) :
    (rest.foldl (execStep cb ctx cfg) s).text_to_paste = s.text_to_paste
    ∧ (rest.foldl (execStep cb ctx cfg) s).paste_successful
        = s.paste_successful := by
  induction rest generalizing s with
  | nil => exact ⟨rfl, rfl⟩
  | cons b bs ih =>
    rw [List.foldl_cons]
    have hb := execStep_nonwriter cb ctx cfg s b (h b (List.mem_cons_self b bs))
    have hrec := ih (execStep cb ctx cfg s b)
      (fun x hx => h x (List.mem_cons_of_mem b hx))
    exact ⟨hrec.1.trans hb.1, hrec.2.trans hb.2⟩

/-- C3. Last output-producing action wins: executing any action list of
the shape `as ++ [a] ++ rest`, where `a` is an output-producing action
(`process_template` or `ner_extract`) and `rest` contains no further
output-writing actions, yields exactly the `text_to_paste` and
`paste_successful` that executing `[a]` alone yields — every earlier
action's output pair is overwritten by the later action's. -/
theorem execute_last_output_action_wins (cb : Collab) (ctx : ExecCtx)
    (cfg : SigConfig) (as rest : List ParsedAction) (a : ParsedAction)
    (ha : a.type = "process_template" ∨ a.type = "ner_extract")
    (hrest : ∀ b ∈ rest, outWriter b.type = false) :
    (execute_actions cb (as ++ a :: rest) ctx cfg).text_to_paste
        = (execute_actions cb [a] ctx cfg).text_to_paste
    ∧ (execute_actions cb (as ++ a :: rest) ctx cfg).paste_successful
        = (execute_actions cb [a] ctx cfg).paste_successful := by
  unfold execute_actions
  simp only [List.foldl_append, List.foldl_cons, List.foldl_nil]
  have hfold := foldl_nonwriters cb ctx cfg rest
    (execStep cb ctx cfg (as.foldl (execStep cb ctx cfg) {}) a) hrest
  have hind := execStep_output_indep cb ctx cfg
    (as.foldl (execStep cb ctx cfg) {}) {} a ha
  exact ⟨hfold.1.trans hind.1, hfold.2.trans hind.2⟩

/-- C3 witness: `["process_template", "ner_extract"]` on a config without
a template: the final output pair is the `ner_extract` one (the NER
result block), not the `process_template` error string. -/
theorem execute_last_output_action_wins_witness :
    (execute_actions cbDemo [actPT, actNer] {} {}).text_to_paste
        = (execute_actions cbDemo [actNer] {} {}).text_to_paste
      ∧ (execute_actions cbDemo [actPT, actNer] {} {}).paste_successful
        = (execute_actions cbDemo [actNer] {} {}).paste_successful :=
  execute_last_output_action_wins cbDemo {} {} [actPT] [] actNer
    (Or.inr rfl) (fun b hb => absurd hb (List.not_mem_nil b))

/-- C4. The `ner_extract` action never escapes its error handling: in
every case (modelled as a total function, so no exception reaches the
caller) the resulting `text_to_paste` is the formatted rendering of some
result dictionary `d` and `paste_successful` is true exactly when `d` has
no `error` key; `d` is either the dictionary returned by the NER
collaborator or a single-entry error dictionary built on a failure branch
(no types, no input text, bad threshold). -/
theorem ner_action_error_contract (cb : Collab) (ctx : ExecCtx)
    (cfg : SigConfig) (s : ExecState) (a : ParsedAction)
    (h : a.type = "ner_extract") :
    ∃ d : NerDict,
      (execStep cb ctx cfg s a).text_to_paste
          = some (format_ner_json_custom d)
      ∧ (execStep cb ctx cfg s a).paste_successful = !(hasKeyB "error" d)
      ∧ ((∃ it ty th, d = cb.ner it ty th)
          ∨ ∃ msg, d = [("error", JVal.s msg)]) := by
  unfold execStep
  simp only [h]
  norm_num
  unfold nerStep
  rcases nerCompute_cases cb ctx cfg a
      ({ s with executed := insertSet s.executed "ner_extract" }).text_to_paste
      ({ s with executed := insertSet s.executed "ner_extract" }).paste_successful
    with ⟨e, he⟩ | ⟨it, ty, th, he⟩
  · refine ⟨[("error", JVal.s e)], ?_, ?_, Or.inr ⟨e, rfl⟩⟩
    · rw [he]; rfl
    · rw [he]
      simp [nerFinalize, hasKeyB, dictGet]
  · refine ⟨cb.ner it ty th, ?_, ?_, Or.inl ⟨it, ty, th, rfl⟩⟩
    · rw [he]
      simp [nerFinalize]
    · rw [he]
      simp [nerFinalize]

/-- C4 witness: the contract instantiated where the collaborator is never
reached because the clipboard is empty (`None`): nevertheless a formatted
error dictionary is produced. -/
theorem ner_action_error_contract_witness :
    ∃ d : NerDict,
      (execStep { cbDemo with clipboard := none } {} {} {} actNer).text_to_paste
          = some (format_ner_json_custom d)
      ∧ (execStep { cbDemo with clipboard := none } {} {} {}
            actNer).paste_successful = !(hasKeyB "error" d)
      ∧ ((∃ it ty th, d = ({ cbDemo with clipboard := none } : Collab).ner it ty th)
          ∨ ∃ msg, d = [("error", JVal.s msg)]) :=
  ner_action_error_contract { cbDemo with clipboard := none } {} {} {} actNer rfl

/-- C9. An `llm` action that cannot resolve a prompt (the command's
template is falsy and the residual text is empty) reports
`paste_successful = False` but leaves `text_to_paste` untouched, so
output produced by an earlier action in the same list survives into the
final result, which can pair a non-`None` `text_to_paste` with
`paste_successful = False`. -/
theorem llm_without_prompt_preserves_output (cb : Collab) (ctx : ExecCtx)
    (cfg : SigConfig) (as : List ParsedAction) (a : ParsedAction)
    (h : a.type = "llm") (ht : effTemplate cfg = none) (hx : ctx.text = "") :
    (execute_actions cb (as ++ [a]) ctx cfg).text_to_paste
        = (execute_actions cb as ctx cfg).text_to_paste
    ∧ (execute_actions cb (as ++ [a]) ctx cfg).paste_successful = false := by
  unfold execute_actions
  simp only [List.foldl_append, List.foldl_cons, List.foldl_nil]
  unfold execStep
  simp only [h]
  norm_num
  unfold llmStep
  rw [ht, hx]
  cases hget : dictGet a.params "model" with
  | some m => simp
  | none => simp

/-- C9 witness: `["process_template", "llm"]` with no template and empty
residual text: the `process_template` error string survives the failed
`llm` action, and the result pairs that non-`None` text with
`paste_successful = False`. -/
theorem llm_without_prompt_preserves_output_witness :
    (execute_actions cbDemo [actPT, actLlm] {} {}).text_to_paste
        = some "Error: process_template action missing template."
    ∧ (execute_actions cbDemo [actPT, actLlm] {} {}).paste_successful
        = false := by
  have h := llm_without_prompt_preserves_output cbDemo {} {} [actPT] actLlm
    rfl rfl rfl
  exact ⟨h.1.trans (by rfl), h.2⟩

/-- C10. An unrecognized action type is silently ignored — the step
changes nothing except recording the type in the executed set — yet that
recording makes `only_language_action` false: a command consisting of a
`language` action plus an unrecognized action still requests the hint but
returns `only_language_action = False`. -/
theorem unknown_action_recorded_but_ignored (cb : Collab) (ctx : ExecCtx)
    (cfg : SigConfig) (s : ExecState) (a : ParsedAction)
    (h : ¬ a.type ∈ ["llm", "mode", "language", "process_template",
      "ner_extract", "speak"])
    (h0 : a.type ≠ "") :
    execStep cb ctx cfg s a
        = { s with executed := insertSet s.executed a.type }
    ∧ ∀ v : String, v ≠ "" →
        (execute_actions cb [⟨"language", some v, []⟩, a] ctx
            cfg).only_language_action = false
        ∧ (execute_actions cb [⟨"language", some v, []⟩, a] ctx
            cfg).new_stt_hint = some v := by
  have h' : a.type ≠ "llm" ∧ a.type ≠ "mode" ∧ a.type ≠ "language"
      ∧ a.type ≠ "process_template" ∧ a.type ≠ "ner_extract"
      ∧ a.type ≠ "speak" := by
    simpa [not_or] using h
  obtain ⟨hllm, hmode, hlang, hpt, hner, hspeak⟩ := h'
  have hstep : ∀ t : ExecState, execStep cb ctx cfg t a
      = { t with executed := insertSet t.executed a.type } := by
    intro t
    unfold execStep
    rw [if_neg h0, if_neg hllm, if_neg hmode, if_neg hlang, if_neg hpt,
      if_neg hner, if_neg hspeak]
  refine ⟨hstep s, ?_⟩
  intro v hv
  unfold execute_actions
  simp only [List.foldl_cons, List.foldl_nil]
  rw [hstep]
  have hne : (("language" : String) == a.type) = false := by
    simp only [beq_eq_false_iff_ne]
    exact fun hcon => hlang hcon.symm
  unfold execStep langStep
  simp [hv, insertSet, hne]
  exact ⟨by simp [hlang], hlang⟩

/-- C10 witness: the step on `frobnicate` only records the type, and
`["language:de-DE", "frobnicate"]` yields `only_language_action = False`
while still requesting the hint. -/
theorem unknown_action_recorded_but_ignored_witness :
    execStep cbDemo {} {} {} actUnknown
        = { ({} : ExecState) with executed := insertSet [] "frobnicate" }
    ∧ (execute_actions cbDemo [actLangDe, actUnknown] {}
          {}).only_language_action = false
    ∧ (execute_actions cbDemo [actLangDe, actUnknown] {} {}).new_stt_hint
        = some "de-DE" := by
  have h := unknown_action_recorded_but_ignored cbDemo {} {} {} actUnknown
    (by decide) (by decide)
  exact ⟨h.1, (h.2 "de-DE" (by decide)).1, (h.2 "de-DE" (by decide)).2⟩

/-- C6. The pending language hint is one-shot: a turn that begins with a
(non-empty) pending hint uses exactly that hint for its transcription
call, and ends with the hint `None` again — unless the turn's matched
command explicitly requests a new hint (`set_next_stt` /
`set_next_stt_and_passthrough`), in which case the new value is the
command's own `stt_language_value`. It never persists by inertia. -/
theorem hint_is_one_shot (defaultLang : String) (stt : String → String)
    (sgT : String → Option String)
    (configs : List (String × OrchSigConfig)) (st : OrchState) (h : String)
    (hh : st.next_stt_language_hint = some h) (hne : h ≠ "") :
    (processTurn defaultLang stt sgT configs st).2.1 = h
    ∧ ((processTurn defaultLang stt sgT configs st).1.next_stt_language_hint
          = none
        ∨ ∃ c tfh,
            orchFind (stt h) (trimWS (stripPunct (lowerStr (stt h)))) configs
                = some (c, tfh)
            ∧ (c.action.getD "transform" = "set_next_stt"
                ∨ c.action.getD "transform" = "set_next_stt_and_passthrough")
            ∧ (processTurn defaultLang stt sgT configs
                  st).1.next_stt_language_hint = c.stt_language_value) := by
  unfold processTurn
  rw [hh]
  simp only [if_neg hne]
  constructor
  · split
    · rfl
    · split
      · rfl
      · split
        · rfl
        · rfl
  · split
    · exact Or.inl rfl
    · split
      · exact Or.inl rfl
      · split
        · exact Or.inl rfl
        · unfold orchDispatch
          cases hf : orchFind (stt h)
              (trimWS (stripPunct (lowerStr (stt h)))) configs with
          | none => exact Or.inl rfl
          | some ct =>
            obtain ⟨c, tfh⟩ := ct
            dsimp only
            by_cases h1 : c.action.getD "transform" = "set_mode"
            · simp only [h1]
              exact Or.inl rfl
            · rw [if_neg h1]
              by_cases h2 : c.action.getD "transform" = "set_next_stt"
              · rw [if_pos h2]
                exact Or.inr ⟨c, tfh, rfl, Or.inl h2, rfl⟩
              · rw [if_neg h2]
                by_cases h3 : c.action.getD "transform"
                    = "set_next_stt_and_passthrough"
                · rw [if_pos h3]
                  exact Or.inr ⟨c, tfh, rfl, Or.inr h3, rfl⟩
                · rw [if_neg h3]
                  by_cases h4 : c.action.getD "transform" = "transform"
                  · rw [if_pos h4]
                    cases c.handler with
                    | some f => exact Or.inl rfl
                    | none => exact Or.inl rfl
                  · rw [if_neg h4]
                    exact Or.inl rfl

/-- C6 witness: a turn beginning with pending hint `"de"` over an empty
command table: the transcription uses `"de"` and the hint is `None`
afterwards. -/
theorem hint_is_one_shot_witness :
    (processTurn "en" (fun _ => "hello world") (fun _ => none) []
        { next_stt_language_hint := some "de" }).2.1 = "de"
    ∧ ((processTurn "en" (fun _ => "hello world") (fun _ => none) []
          { next_stt_language_hint := some "de" }).1.next_stt_language_hint
            = none
        ∨ ∃ c tfh,
            orchFind "hello world"
                (trimWS (stripPunct (lowerStr "hello world"))) []
                = some (c, tfh)
            ∧ (c.action.getD "transform" = "set_next_stt"
                ∨ c.action.getD "transform" = "set_next_stt_and_passthrough")
            ∧ (processTurn "en" (fun _ => "hello world") (fun _ => none) []
                  { next_stt_language_hint := some "de" }
                ).1.next_stt_language_hint = c.stt_language_value) :=
  hint_is_one_shot "en" (fun _ => "hello world") (fun _ => none) []
    { next_stt_language_hint := some "de" } "de" rfl (by decide)

lemma insSorted_perm (x : String) (l : List String) :
    List.Perm (insSorted x l) (x :: l) := by
  induction l with
  | nil => exact List.Perm.refl _
  | cons y ys ih =>
    unfold insSorted
    by_cases hy : y < x
    · rw [if_pos hy]
      exact (List.Perm.cons y ih).trans (List.Perm.swap x y ys)
    · rw [if_neg hy]

lemma sortStrs_perm (l : List String) : List.Perm (sortStrs l) l := by
  induction l with
  | nil => exact List.Perm.refl _
  | cons a as ih =>
    show List.Perm (insSorted a (sortStrs as)) (a :: as)
    exact (insSorted_perm a (sortStrs as)).trans (List.Perm.cons a ih)

lemma insSorted_sorted (x : String) (l : List String)
    (h : l.Pairwise (· ≤ ·)) : (insSorted x l).Pairwise (· ≤ ·) := by
  induction l with
  | nil => simp [insSorted]
  | cons y ys ih =>
    rw [List.pairwise_cons] at h
    unfold insSorted
    by_cases hy : y < x
    · rw [if_pos hy]
      rw [List.pairwise_cons]
      refine ⟨?_, ih h.2⟩
      intro z hz
      have hz' : z ∈ x :: ys := (insSorted_perm x ys).mem_iff.mp hz
      rcases List.mem_cons.mp hz' with hz' | hz'
      · exact hz' ▸ le_of_lt hy
      · exact h.1 z hz'
    · rw [if_neg hy]
      rw [List.pairwise_cons]
      refine ⟨?_, List.pairwise_cons.mpr h⟩
      intro z hz
      have hxy : x ≤ y := not_lt.mp hy
      rcases List.mem_cons.mp hz with hz | hz
      · exact hz ▸ hxy
      · exact hxy.trans (h.1 z hz)

lemma sortStrs_sorted (l : List String) :
    (sortStrs l).Pairwise (· ≤ ·) := by
  induction l with
  | nil => simp [sortStrs]
  | cons a as ih => exact insSorted_sorted a (sortStrs as) ih

lemma insPair_perm (x : String × Nat) (l : List (String × Nat)) :
    List.Perm (insPair x l) (x :: l) := by
  induction l with
  | nil => exact List.Perm.refl _
  | cons y ys ih =>
    unfold insPair
    by_cases hy : y.1 < x.1 ∨ (y.1 = x.1 ∧ y.2 < x.2)
    · rw [if_pos hy]
      exact (List.Perm.cons y ih).trans (List.Perm.swap x y ys)
    · rw [if_neg hy]

lemma sortPairs_perm (l : List (String × Nat)) : List.Perm (sortPairs l) l := by
  induction l with
  | nil => exact List.Perm.refl _
  | cons a as ih =>
    show List.Perm (insPair a (sortPairs as)) (a :: as)
    exact (insPair_perm a (sortPairs as)).trans (List.Perm.cons a ih)

lemma insPair_sorted (x : String × Nat) (l : List (String × Nat))
    (h : l.Pairwise (fun a b => a.1 ≤ b.1)) :
    (insPair x l).Pairwise (fun a b => a.1 ≤ b.1) := by
  induction l with
  | nil => simp [insPair]
  | cons y ys ih =>
    rw [List.pairwise_cons] at h
    unfold insPair
    by_cases hy : y.1 < x.1 ∨ (y.1 = x.1 ∧ y.2 < x.2)
    · rw [if_pos hy]
      rw [List.pairwise_cons]
      refine ⟨?_, ih h.2⟩
      intro z hz
      have hz' : z ∈ x :: ys := (insPair_perm x ys).mem_iff.mp hz
      have hyx : y.1 ≤ x.1 := by
        rcases hy with hy | hy
        · exact le_of_lt hy
        · exact le_of_eq hy.1
      rcases List.mem_cons.mp hz' with hz' | hz'
      · exact hz' ▸ hyx
      · exact h.1 z hz'
    · rw [if_neg hy]
      rw [List.pairwise_cons]
      refine ⟨?_, List.pairwise_cons.mpr h⟩
      intro z hz
      push_neg at hy
      have hxy : x.1 ≤ y.1 := not_lt.mp hy.1
      rcases List.mem_cons.mp hz with hz | hz
      · exact hz ▸ hxy
      · exact hxy.trans (h.1 z hz)

lemma sortPairs_sorted (l : List (String × Nat)) :
    (sortPairs l).Pairwise (fun a b => a.1 ≤ b.1) := by
  induction l with
  | nil => simp [sortPairs]
  | cons a as ih => exact insPair_sorted a (sortPairs as) ih

lemma dictGet_mem {α : Type} {l : List (String × α)} {k : String} {v : α}
    (h : dictGet l k = some v) : (k, v) ∈ l := by
  induction l with
  | nil => simp [dictGet] at h
  | cons kv rest ih =>
    obtain ⟨k', v'⟩ := kv
    unfold dictGet at h
    by_cases hk : k' = k
    · rw [if_pos hk] at h
      cases h
      subst hk
      exact List.mem_cons_self _ _
    · rw [if_neg hk] at h
      exact List.mem_cons_of_mem _ (ih h)

lemma dictGet_eq_none_of_not_mem {α : Type} {l : List (String × α)}
    {k : String} (h : k ∉ l.map Prod.fst) : dictGet l k = none := by
  induction l with
  | nil => rfl
  | cons kv rest ih =>
    obtain ⟨k', v'⟩ := kv
    simp only [List.map_cons, List.mem_cons] at h
    push_neg at h
    unfold dictGet
    rw [if_neg (fun he => h.1 he.symm)]
    exact ih h.2

lemma dictGet_isSome_of_mem {α : Type} {l : List (String × α)} {k : String}
    (h : k ∈ l.map Prod.fst) : ∃ v, dictGet l k = some v := by
  induction l with
  | nil => simp at h
  | cons kv rest ih =>
    obtain ⟨k', v'⟩ := kv
    unfold dictGet
    by_cases hk : k' = k
    · exact ⟨v', by rw [if_pos hk]⟩
    · simp only [List.map_cons, List.mem_cons] at h
      rcases h with h | h
      · exact absurd h.symm hk
      · obtain ⟨v, hv⟩ := ih h
        exact ⟨v, by rw [if_neg hk]; exact hv⟩

lemma dictGet_dictInsert {α : Type} (l : List (String × α)) (k k' : String)
    (v : α) :
    dictGet (dictInsert l k v) k'
      = if k' = k then some v else dictGet l k' := by
  induction l with
  | nil =>
    unfold dictInsert dictGet
    by_cases hk : k' = k
    · rw [if_pos hk, if_pos hk.symm]
    · rw [if_neg hk, if_neg (fun he => hk he.symm)]
      rfl
  | cons kv rest ih =>
    obtain ⟨a, b⟩ := kv
    unfold dictInsert
    by_cases ha : a = k
    · rw [if_pos ha]
      unfold dictGet
      by_cases hk : k' = k
      · rw [if_pos hk.symm, if_pos hk]
      · rw [if_neg (fun he => hk he.symm), if_neg hk]
        rw [if_neg (fun he : a = k' => hk (he.symm.trans ha))]
    · rw [if_neg ha]
      unfold dictGet
      by_cases hak : a = k'
      · rw [if_pos hak]
        rw [if_neg (fun he : k' = k => ha (hak.trans he))]
        unfold dictGet
        rw [if_pos hak]
      · rw [if_neg hak, if_neg hak, ih]

lemma dictGet_dictDel (d : NerDict) (k k' : String) :
    dictGet (dictDel d k) k' = if k' = k then none else dictGet d k' := by
  induction d with
  | nil =>
    unfold dictDel dictGet
    by_cases hk : k' = k
    · simp [hk]
    · simp [hk, dictGet]
  | cons kv rest ih =>
    obtain ⟨a, b⟩ := kv
    unfold dictDel at ih ⊢
    rw [List.filter_cons]
    have hstep2 : dictGet ((a, b) :: rest) k'
        = if a = k' then some b else dictGet rest k' := rfl
    by_cases hak : a = k
    · rw [if_neg (by simp [hak]), ih]
      by_cases hk : k' = k
      · rw [if_pos hk, if_pos hk]
      · rw [if_neg hk, if_neg hk, hstep2,
          if_neg (fun he : a = k' => hk (he.symm.trans hak))]
    · rw [if_pos (by simp [hak])]
      have hstep1 : dictGet ((a, b) ::
            List.filter (fun kv => decide (kv.1 ≠ k)) rest) k'
          = if a = k' then some b
            else dictGet (List.filter (fun kv => decide (kv.1 ≠ k)) rest) k' :=
        rfl
      rw [hstep1, hstep2, ih]
      by_cases hak' : a = k'
      · by_cases hk : k' = k
        · exact absurd (hak'.trans hk) hak
        · simp [hak', hk]
      · by_cases hk : k' = k
        · simp only [if_neg hak', if_pos hk]
        · simp [hak', hk]

lemma addName_nodup {names : List String} {x : String} (h : names.Nodup) :
    (addName names x).Nodup := by
  unfold addName
  by_cases hx : x ∈ names
  · rw [if_pos hx]
    exact h
  · rw [if_neg hx]
    simp [List.nodup_append, h, hx]

lemma getD_nodup {l : List (String × List String)} {k : String}
    (h : ∀ kv ∈ l, kv.2.Nodup) : ((dictGet l k).getD []).Nodup := by
  cases hg : dictGet l k with
  | none => simp
  | some v => exact h (k, v) (dictGet_mem hg)

lemma dictInsert_nodupVals {l : List (String × List String)} {k : String}
    {v : List String} (hl : ∀ kv ∈ l, kv.2.Nodup) (hv : v.Nodup) :
    ∀ kv ∈ dictInsert l k v, kv.2.Nodup := by
  induction l with
  | nil =>
    intro kv hkv
    rw [List.mem_singleton.mp hkv]
    exact hv
  | cons kv0 rest ih =>
    obtain ⟨a, b⟩ := kv0
    unfold dictInsert
    by_cases hak : a = k
    · rw [if_pos hak]
      intro kv hkv
      rcases List.mem_cons.mp hkv with hkv | hkv
      · rw [hkv]; exact hv
      · exact hl kv (List.mem_cons_of_mem _ hkv)
    · rw [if_neg hak]
      intro kv hkv
      rcases List.mem_cons.mp hkv with hkv | hkv
      · rw [hkv]
        exact hl (a, b) (List.mem_cons_self _ _)
      · exact ih (fun kv' hkv' => hl kv' (List.mem_cons_of_mem _ hkv')) kv hkv

lemma foldl_groupInner_nodupVals (label : String)
    (l : List (String × Nat))
    (acc2 : List (String × Nat) × List (String × List String))
    (h : ∀ kv ∈ acc2.2, kv.2.Nodup) :
    ∀ kv ∈ (l.foldl (groupInner label) acc2).2, kv.2.Nodup := by
  induction l generalizing acc2 with
  | nil => exact h
  | cons tc rest ih =>
    rw [List.foldl_cons]
    refine ih _ ?_
    show ∀ kv ∈ (groupInner label acc2 tc).2, kv.2.Nodup
    unfold groupInner
    exact dictInsert_nodupVals h (addName_nodup (getD_nodup h))

lemma groupAccum_nodupVals (raw : List (String × List (String × Nat))) :
    ∀ kv ∈ (groupAccum raw).2, kv.2.Nodup := by
  unfold groupAccum
  have hgen : ∀ (rs : List (String × List (String × Nat)))
      (acc : List (String × Nat) × List (String × List String)),
      (∀ kv ∈ acc.2, kv.2.Nodup) →
      ∀ kv ∈ (rs.foldl groupOuter acc).2, kv.2.Nodup := by
    intro rs
    induction rs with
    | nil => intro acc h; exact h
    | cons entry rest ih =>
      intro acc h
      rw [List.foldl_cons]
      refine ih _ ?_
      show ∀ kv ∈ (groupOuter acc entry).2, kv.2.Nodup
      unfold groupOuter
      by_cases he : entry.1 = ""
      · rw [if_pos he]; exact h
      · rw [if_neg he]
        exact foldl_groupInner_nodupVals _ _ _
          (dictInsert_nodupVals h (getD_nodup h))
  exact hgen raw ([], []) (by intro kv hkv; simp at hkv)

lemma formatGrouped_list_values (raw : List (String × List (String × Nat))) :
    ∀ label xs,
      dictGet (formatGroupedEntities raw) label = some (JVal.l xs) →
      ∃ ns : List String, ns.Nodup ∧ xs = sortStrs ns := by
  unfold formatGroupedEntities
  intro label xs
  have hQfold : ∀ (kvs : List (String × JVal)) (d : NerDict),
      (∀ lb ys, dictGet d lb = some (JVal.l ys) →
        ∃ ns : List String, ns.Nodup ∧ ys = sortStrs ns) →
      (∀ kv ∈ kvs, ∃ ns : List String, ns.Nodup ∧ kv.2 = JVal.l (sortStrs ns)) →
      ∀ lb ys,
        dictGet (kvs.foldl (fun d kv => dictInsert d kv.1 kv.2) d) lb
            = some (JVal.l ys) →
        ∃ ns : List String, ns.Nodup ∧ ys = sortStrs ns := by
    intro kvs
    induction kvs with
    | nil => intro d hd _ lb ys hget; exact hd lb ys hget
    | cons kv rest ih =>
      intro d hd hall lb ys hget
      rw [List.foldl_cons] at hget
      refine ih _ ?_ (fun kv' hkv' => hall kv' (List.mem_cons_of_mem _ hkv'))
        lb ys hget
      intro lb' ys' hget'
      rw [dictGet_dictInsert] at hget'
      by_cases hlb : lb' = kv.1
      · rw [if_pos hlb] at hget'
        obtain ⟨ns, hns, hkv2⟩ := hall kv (List.mem_cons_self _ _)
        rw [hkv2] at hget'
        cases hget'
        exact ⟨ns, hns, rfl⟩
      · rw [if_neg hlb] at hget'
        exact hd lb' ys' hget'
  have hbase : ∀ lb ys,
      dictGet [("hits", JVal.m (groupAccum raw).1)] lb = some (JVal.l ys) →
      ∃ ns : List String, ns.Nodup ∧ ys = sortStrs ns := by
    intro lb ys hget
    unfold dictGet at hget
    by_cases hlb : "hits" = lb
    · rw [if_pos hlb] at hget
      cases hget
    · rw [if_neg hlb] at hget
      unfold dictGet at hget
      cases hget
  have hall : ∀ kv ∈ ((groupAccum raw).2.filterMap
      (fun kv =>
        if kv.2 = [] then none
        else some (kv.1, JVal.l (sortStrs kv.2)))),
      ∃ ns : List String, ns.Nodup ∧ kv.2 = JVal.l (sortStrs ns) := by
    intro kv hkv
    rw [List.mem_filterMap] at hkv
    obtain ⟨kv0, hkv0, hf⟩ := hkv
    by_cases h0 : kv0.2 = []
    · rw [if_pos h0] at hf
      cases hf
    · rw [if_neg h0] at hf
      cases hf
      exact ⟨kv0.2, groupAccum_nodupVals raw kv0 hkv0, rfl⟩
  have hres := hQfold _ _ hbase hall
  intro hget
  dsimp only at hget
  split at hget
  · unfold dictGet at hget
    cases hget
  · split at hget
    · rw [dictGet_dictDel] at hget
      by_cases hlb : label = "hits"
      · rw [if_pos hlb] at hget
        cases hget
      · rw [if_neg hlb] at hget
        exact hres label xs hget
    · exact hres label xs hget

lemma formatKeyStep_not_hits (data : NerDict) (acc : List String × String)
    (k : String) (h : k ≠ "hits") :
    formatKeyStep data acc k
      = (acc.1 ++ (labelLineOf data k).toList, acc.2) := by
  unfold formatKeyStep labelLineOf
  cases dictGet data k with
  | none => simp
  | some v =>
    dsimp only
    rw [if_neg h]
    cases v with
    | s s => simp
    | l xs =>
      by_cases hxs : xs = []
      · simp [hxs]
      · simp [hxs]
    | m m => simp

lemma foldl_fks_no_hits (data : NerDict) (ks : List String)
    (acc : List String × String) (h : "hits" ∉ ks) :
    ks.foldl (formatKeyStep data) acc
      = (acc.1 ++ ks.filterMap (labelLineOf data), acc.2) := by
  induction ks generalizing acc with
  | nil => simp
  | cons k ks' ih =>
    simp only [List.mem_cons] at h
    push_neg at h
    rw [List.foldl_cons,
      formatKeyStep_not_hits data acc k (fun he => h.1 he.symm), ih _ h.2]
    rw [List.filterMap_cons]
    cases labelLineOf data k with
    | none => simp
    | some line => simp

lemma hitsBlock_ne_empty (hm : List (String × Nat)) : hitsBlock hm ≠ "" := by
  unfold hitsBlock
  intro hcon
  have hdata := congrArg String.data hcon
  rw [String.data_append, String.data_append] at hdata
  simp at hdata

/-- C8. The NER output block is deterministic and sorted: on result
dictionaries without an `error` key (keys unique, as Python dicts are)
`format_ner_json_custom` renders exactly the spec-described block — type
labels one per line in sorted key order, the `hits` block last — and the
empty dictionary renders as `"{}"`; `sortStrs`/`sortPairs` really sort
(stated as permutation + ordering), the hits entries being ordered by
entity text; and every entity list stored by `_format_grouped_entities`
is strictly sorted, hence duplicate-free. -/
theorem ner_format_deterministic_sorted (data : NerDict)
    (hnd : (data.map Prod.fst).Nodup)
    (herr : hasKeyB "error" data = false) :
    format_ner_json_custom data = formatNerSpec data
    ∧ (data = ([] : NerDict) → format_ner_json_custom data = "\x7b\x7d")
    ∧ (∀ l : List String,
        List.Perm (sortStrs l) l ∧ (sortStrs l).Pairwise (· ≤ ·))
    ∧ (∀ hm : List (String × Nat),
        List.Perm (sortPairs hm) hm
          ∧ (sortPairs hm).Pairwise (fun a b => a.1 ≤ b.1))
    ∧ (∀ (raw : List (String × List (String × Nat))) (label : String)
        (xs : List String),
        dictGet (formatGroupedEntities raw) label = some (JVal.l xs) →
        xs.Pairwise (· < ·)) := by
  refine ⟨?_, ?_,
    fun l => ⟨sortStrs_perm l, sortStrs_sorted l⟩,
    fun hm => ⟨sortPairs_perm hm, sortPairs_sorted hm⟩, ?_⟩
  · unfold format_ner_json_custom formatNerSpec
    rw [if_neg (by rw [herr]; exact Bool.false_ne_true)]
    by_cases hdata : data = []
    · rw [if_pos hdata]
      subst hdata
      rfl
    · rw [if_neg hdata]
      dsimp only
      by_cases hmem : "hits" ∈ data.map Prod.fst
      · have hmem0 : "hits" ∈ sortStrs (data.map Prod.fst) :=
          (sortStrs_perm _).mem_iff.mpr hmem
        rw [if_pos hmem0]
        have hnd0 : (sortStrs (data.map Prod.fst)).Nodup :=
          (sortStrs_perm _).nodup_iff.mpr hnd
        have herase : (sortStrs (data.map Prod.fst)).erase "hits"
            = sortStrs ((data.map Prod.fst).filter (fun k => k != "hits")) := by
          have hp : List.Perm ((sortStrs (data.map Prod.fst)).erase "hits")
              (sortStrs ((data.map Prod.fst).filter (fun k => k != "hits"))) := by
            rw [hnd0.erase_eq_filter]
            exact ((sortStrs_perm (data.map Prod.fst)).filter _).trans
              (sortStrs_perm _).symm
          have hs1 : ((sortStrs (data.map Prod.fst)).erase
              "hits").Pairwise (· ≤ ·) := by
            rw [hnd0.erase_eq_filter]
            exact (sortStrs_sorted _).filter _
          exact List.eq_of_perm_of_sorted hp hs1 (sortStrs_sorted _)
        have hnot : "hits" ∉ (sortStrs (data.map Prod.fst)).erase "hits" := by
          rw [hnd0.erase_eq_filter]
          intro hcon
          rcases List.mem_filter.mp hcon with ⟨_, hdec⟩
          simp at hdec
        rw [List.foldl_append, foldl_fks_no_hits data _ ([], "") hnot]
        simp only [List.foldl_cons, List.foldl_nil, List.nil_append]
        obtain ⟨v, hv⟩ := dictGet_isSome_of_mem hmem
        unfold formatKeyStep
        rw [hv]
        dsimp only
        rw [if_pos rfl, herase]
        cases v with
        | s s => simp
        | l xs => simp
        | m hm =>
          dsimp only
          by_cases hhm : hm = []
          · simp [hhm]
          · simp only [if_neg hhm]
            rw [if_neg (hitsBlock_ne_empty hm)]
      · have hmem0 : "hits" ∉ sortStrs (data.map Prod.fst) :=
          fun hcon => hmem ((sortStrs_perm _).mem_iff.mp hcon)
        rw [if_neg hmem0]
        rw [foldl_fks_no_hits data _ ([], "") hmem0]
        have hfilter : (data.map Prod.fst).filter (fun k => k != "hits")
            = data.map Prod.fst := by
          apply List.filter_eq_self.mpr
          intro k hk
          have : k ≠ "hits" := fun he => hmem (he ▸ hk)
          simp [this]
        have hget : dictGet data "hits" = none :=
          dictGet_eq_none_of_not_mem hmem
        rw [hfilter, hget]
        simp
  · intro h
    rw [h]
    rfl
  · intro raw label xs hget
    obtain ⟨ns, hns, hxs⟩ := formatGrouped_list_values raw label xs hget
    subst hxs
    have hnd' : (sortStrs ns).Nodup := (sortStrs_perm ns).nodup_iff.mpr hns
    have hsorted := sortStrs_sorted ns
    exact (hsorted.and hnd').imp (fun hab => lt_of_le_of_ne hab.1 hab.2)

/-- C8 witness: the formatting contract instantiated on the result
dictionary for one `Person` entity with one hit. -/
theorem ner_format_deterministic_sorted_witness :
    format_ner_json_custom
        [("Person", JVal.l ["John"]), ("hits", JVal.m [("John", 1)])]
      = formatNerSpec
        [("Person", JVal.l ["John"]), ("hits", JVal.m [("John", 1)])] :=
  (ner_format_deterministic_sorted
      [("Person", JVal.l ["John"]), ("hits", JVal.m [("John", 1)])]
      (by decide) (by decide)).1

end VoiceAssistant
